import Mathlib

/-!
Verification development for the manifestr repository (Go).

The core under study is `pkg/models/manifest.go`: the HLS manifest model,
its parser (`ReadManifest`), serializer (`WriteLocalManifest`), derived
queries (`IsFmp4`, `Runtime`, filename derivation, URL resolution) and the
fragment-download orchestrator (`DownloadAllFragments`).

Shallow-embedding conventions:
* Go `string` is modelled as `List Char` (`GoStr`); byte-for-byte equality
  of texts is list equality.
* Go `float64` is modelled as an exact fraction (`GoFloat`: integer
  numerator over positive natural denominator, never reduced): every
  duration value a manifest can carry is a decimal literal, rendered back
  with `%f` (six fraction digits); the exact-fraction model keeps
  parsing/printing and summation exact, and `GoFloat.toRat` maps it to `ℚ`
  for algebraic statements.  Ties in `%f` rounding (impossible for actual
  binary floats) are resolved half-up.
* Go `int` is modelled as unbounded `Int` (no claim exercises overflow).
* `strconv.Atoi` / `strconv.ParseFloat` are modelled as `Option`-valued
  syntax checkers (`parseIntGo`, `parseFloatGo`);  the Go code discards
  their error with `_, :=` which the model renders as `Option.getD 0`.
  `ParseFloat`'s hex/inf/nan forms are out of the modelled grammar.
* `time.Time` is modelled as a plain calendar record (`GoTime`);
  `Format`/`Parse` are modelled for the one fixed layout the code uses,
  `"2006-01-02T15:04:05.999Z"`.
* `net/url.URL` is modelled by its scheme/host/path triple; `url.Parse`
  and relative-reference resolution are modelled for such locators
  (queries, fragments, userinfo and dot-segment normalisation are outside
  the model; no claim exercises them).
-/

set_option maxRecDepth 20000

/-- Go strings, modelled as lists of characters. -/
abbrev GoStr := List Char

/-- The character list of a Lean string literal. -/
def gs (s : String) : GoStr := s.data

/-- Model of `strings.HasPrefix pre s` (first argument is the prefix tested). -/
def hasPre : GoStr → GoStr → Bool
  | [], _ => true
  | _ :: _, [] => false
  | c :: p, d :: s => c == d && hasPre p s

/-- Model of `strings.TrimPrefix`: drop `p` from the front of `s` when present. -/
def dropPre (p s : GoStr) : GoStr :=
  if hasPre p s then s.drop p.length else s

/-- Model of `strings.HasSuffix`. -/
def hasSuf (suf s : GoStr) : Bool :=
  hasPre suf.reverse s.reverse

/-- Model of `strings.TrimSuffix`: drop `suf` from the end of `s` when present. -/
def dropSuf (suf s : GoStr) : GoStr :=
  if hasSuf suf s then s.take (s.length - suf.length) else s

/-- Model of `strings.Split` with a one-character separator (the code only
splits on `"x"`).  Always returns at least one element, like Go's `Split`. -/
def splitOnChar (sep : Char) : GoStr → List GoStr
  | [] => [[]]
  | c :: rest =>
    if c == sep then [] :: splitOnChar sep rest
    else
      match splitOnChar sep rest with
      | [] => [[c]]
      | g :: groups => (c :: g) :: groups

/-- Model of `path.Base`: strip trailing slashes, then keep everything after
the last slash; `""` gives `"."` and an all-slash path gives `"/"`. -/
def pathBase (s : GoStr) : GoStr :=
  if s = [] then ['.']
  else
    let r := s.reverse.dropWhile (· == '/')
    if r = [] then ['/'] else (r.takeWhile (· != '/')).reverse

/-- Model of `path.Ext`: the suffix of the last path element starting at its
final dot, or empty when the last element has no dot. -/
def pathExt (s : GoStr) : GoStr :=
  let r := s.reverse
  let pre := r.takeWhile (fun c => !(c == '.') && !(c == '/'))
  match r.drop pre.length with
  | '.' :: _ => '.' :: pre.reverse
  | _ => []

/-- Decimal digit character for a value below ten. -/
def digitCh (n : Nat) : Char := Char.ofNat (48 + n)

/-- Fuel-driven decimal printer (fuel keeps the recursion structural so the
kernel can evaluate it). -/
def natToStrAux : Nat → Nat → GoStr
  | 0, _ => []
  | fuel + 1, n =>
    if n < 10 then [digitCh n]
    else natToStrAux fuel (n / 10) ++ [digitCh (n % 10)]

/-- Decimal rendering of a natural number, as Go's `%d` prints one. -/
def natToStr (n : Nat) : GoStr := natToStrAux (n + 1) n

/-- Model of Go's `%d` on a (signed) integer. -/
def intToStr (i : Int) : GoStr :=
  if i < 0 then '-' :: natToStr i.natAbs else natToStr i.natAbs

/-- Left-pad with zeros to the given width (Go's zero-padded verbs). -/
def padZeros (w : Nat) (s : GoStr) : GoStr :=
  List.replicate (w - s.length) '0' ++ s

/-- Numeric value of a string of decimal digits. -/
def natVal (s : GoStr) : Nat :=
  s.foldl (fun a c => 10 * a + (c.toNat - 48)) 0

/-- Unsigned decimal part of `strconv.Atoi`: all characters must be digits
and at least one must be present. -/
def parseUintPart (s : GoStr) : Option Nat :=
  if s ≠ [] ∧ s.all Char.isDigit then some (natVal s) else none

/-- Model of `strconv.Atoi`: optional sign then decimal digits; `none` for a
syntactically malformed input (the Go range clamp is outside the model). -/
def parseIntGo : GoStr → Option Int
  | '+' :: rest => (parseUintPart rest).map Int.ofNat
  | '-' :: rest => (parseUintPart rest).map (fun n => -(n : Int))
  | rest => (parseUintPart rest).map Int.ofNat

/-- Exact-fraction model of a Go `float64` value: an integer numerator over
a positive natural denominator.  Fractions are never reduced, so all
operations stay kernel-computable (no gcd); `toRat` gives the value. -/
structure GoFloat where
  num : Int
  den : ℕ+
deriving DecidableEq, Repr

/-- The zero float64. -/
def GoFloat.zero : GoFloat := ⟨0, 1⟩

instance : Inhabited GoFloat := ⟨GoFloat.zero⟩

/-- Negation of a `GoFloat`. -/
def GoFloat.neg (q : GoFloat) : GoFloat := ⟨-q.num, q.den⟩

/-- Addition of `GoFloat`s, as plain cross-multiplied fractions. -/
def GoFloat.add (a b : GoFloat) : GoFloat :=
  ⟨a.num * (b.den : ℕ) + b.num * (a.den : ℕ), a.den * b.den⟩

/-- Scale a `GoFloat` by `10 ^ k`. -/
def GoFloat.mulPow10 (q : GoFloat) (k : Nat) : GoFloat := ⟨q.num * 10 ^ k, q.den⟩

/-- Divide a `GoFloat` by `10 ^ k`. -/
def GoFloat.divPow10 (q : GoFloat) (k : Nat) : GoFloat := ⟨q.num, q.den * 10 ^ k⟩

/-- The rational value of a `GoFloat`. -/
def GoFloat.toRat (q : GoFloat) : ℚ := (q.num : ℚ) / ((q.den : ℕ) : ℚ)

/-- Exponent handling for `parseFloatGo`: apply a decimal exponent suffix
(`e`/`E`, optional sign, digits) to `mant`. -/
def applyExpMag (mant : GoFloat) (neg : Bool) (s : GoStr) : Option GoFloat :=
  if s ≠ [] ∧ s.all Char.isDigit then
    some (if neg then mant.divPow10 (natVal s) else mant.mulPow10 (natVal s))
  else none

/-- Optional exponent suffix of a Go float literal. -/
def applyExpPart (mant : GoFloat) : GoStr → Option GoFloat
  | [] => some mant
  | 'e' :: '+' :: rest => applyExpMag mant false rest
  | 'e' :: '-' :: rest => applyExpMag mant true rest
  | 'e' :: rest => applyExpMag mant false rest
  | 'E' :: '+' :: rest => applyExpMag mant false rest
  | 'E' :: '-' :: rest => applyExpMag mant true rest
  | 'E' :: rest => applyExpMag mant false rest
  | _ => none

/-- Unsigned part of a Go float literal: `digits[.digits][exp]` with at least
one mantissa digit. -/
def parseFloatMag (s : GoStr) : Option GoFloat :=
  let intDigs := s.takeWhile Char.isDigit
  let s1 := s.drop intDigs.length
  match s1 with
  | '.' :: s2 =>
    let fracDigs := s2.takeWhile Char.isDigit
    let s3 := s2.drop fracDigs.length
    if intDigs.length + fracDigs.length = 0 then none
    else applyExpPart (GoFloat.divPow10 ⟨natVal (intDigs ++ fracDigs), 1⟩ fracDigs.length) s3
  | _ =>
    if intDigs = [] then none else applyExpPart ⟨natVal intDigs, 1⟩ s1

/-- Model of `strconv.ParseFloat(_, 64)` on the decimal grammar: optional
sign, digits with optional fraction, optional exponent.  The value is kept
exact (see the header comment); hex/inf/nan forms are `none`. -/
def parseFloatGo : GoStr → Option GoFloat
  | '+' :: rest => parseFloatMag rest
  | '-' :: rest => (parseFloatMag rest).map GoFloat.neg
  | rest => parseFloatMag rest

/-- Model of Go's `%f` (six fraction digits) on the fraction model of a
float64: `⌊|q| * 10^6 + 1/2⌋` rendered as integer and six-digit fraction.
Ties round half-up; a true binary float64 can never land on a tie. -/
def formatF (q : GoFloat) : GoStr :=
  let v : Nat := (q.num.natAbs * 2000000 + (q.den : ℕ)) / (2 * (q.den : ℕ))
  (if q.num < 0 then ['-'] else []) ++
    natToStr (v / 1000000) ++ '.' :: padZeros 6 (natToStr (v % 1000000))

/-- Calendar record modelling `time.Time` at the granularity the code uses
(the layout `"2006-01-02T15:04:05.999Z"`; zones other than the literal `Z`
never appear). -/
structure GoTime where
  year : Nat
  month : Nat
  day : Nat
  hour : Nat
  minute : Nat
  second : Nat
  nanos : Nat
deriving DecidableEq, Repr

/-- The zero `time.Time`: January 1, year 1, 00:00:00 UTC. -/
def zeroGoTime : GoTime := ⟨1, 1, 1, 0, 0, 0, 0⟩

/-- Strip trailing zero digits (the `.999` layout element trims them). -/
def dropTrailZeros (s : GoStr) : GoStr :=
  (s.reverse.dropWhile (· == '0')).reverse

/-- Fractional-second text produced by the `.999` layout element:
milliseconds truncated from nanoseconds, trailing zeros removed, empty when
the millisecond value is zero. -/
def fracPart (ns : Nat) : GoStr :=
  let ms := ns / 1000000
  if ms = 0 then [] else '.' :: dropTrailZeros (padZeros 3 (natToStr ms))

/-- Model of `Time.Format("2006-01-02T15:04:05.999Z")`. -/
def formatGoTime (t : GoTime) : GoStr :=
  padZeros 4 (natToStr t.year) ++ '-' :: padZeros 2 (natToStr t.month) ++
    '-' :: padZeros 2 (natToStr t.day) ++ 'T' :: padZeros 2 (natToStr t.hour) ++
    ':' :: padZeros 2 (natToStr t.minute) ++ ':' :: padZeros 2 (natToStr t.second) ++
    fracPart t.nanos ++ ['Z']

/-- Read exactly `n` decimal digits from the front of `s`. -/
def takeDigits (n : Nat) (s : GoStr) : Option (Nat × GoStr) :=
  let ds := s.take n
  if ds.length = n ∧ ds.all Char.isDigit then some (natVal ds, s.drop n) else none

/-- Require character `c` at the front of `s`. -/
def expectChar (c : Char) : GoStr → Option GoStr
  | d :: rest => if d == c then some rest else none
  | [] => none

/-- Optional fractional seconds accepted by the `.999` layout element: a dot
followed by one to nine digits, extended to nanoseconds. -/
def parseFracPart : GoStr → Option (Nat × GoStr)
  | '.' :: rest =>
    let ds := rest.takeWhile Char.isDigit
    if ds.length = 0 ∨ ds.length > 9 then none
    else some (natVal (ds ++ List.replicate (9 - ds.length) '0'), rest.drop ds.length)
  | other => some (0, other)

/-- Days in a month of the proleptic Gregorian calendar. -/
def daysInMonth (y m : Nat) : Nat :=
  if m = 2 then (if y % 4 = 0 ∧ (y % 100 ≠ 0 ∨ y % 400 = 0) then 29 else 28)
  else if m = 4 ∨ m = 6 ∨ m = 9 ∨ m = 11 then 30
  else 31

/-- Model of `time.Parse("2006-01-02T15:04:05.999Z", s)`: the layout's shape
with calendar validation; `none` models a parse error (on which Go also
returns the zero `time.Time`). -/
def parseGoTime (s : GoStr) : Option GoTime := do
  let (y, s) ← takeDigits 4 s
  let s ← expectChar '-' s
  let (mo, s) ← takeDigits 2 s
  let s ← expectChar '-' s
  let (d, s) ← takeDigits 2 s
  let s ← expectChar 'T' s
  let (h, s) ← takeDigits 2 s
  let s ← expectChar ':' s
  let (mi, s) ← takeDigits 2 s
  let s ← expectChar ':' s
  let (sec, s) ← takeDigits 2 s
  let (ns, s) ← parseFracPart s
  let s ← expectChar 'Z' s
  if s = [] ∧ 1 ≤ mo ∧ mo ≤ 12 ∧ 1 ≤ d ∧ d ≤ daysInMonth y mo ∧
      h ≤ 23 ∧ mi ≤ 59 ∧ sec ≤ 59 then
    some ⟨y, mo, d, h, mi, sec, ns⟩
  else none

/-- Scheme/host/path triple modelling `net/url.URL` for the locators this
program handles (see the header comment for the modelled subset). -/
structure GoUrl where
  scheme : GoStr
  host : GoStr
  path : GoStr
deriving DecidableEq, Repr

/-- Split a locator at its first `"://"`, if any. -/
def splitSchemeAux : GoStr → GoStr → Option (GoStr × GoStr)
  | ':' :: '/' :: '/' :: rest, acc => some (acc.reverse, rest)
  | c :: rest, acc => splitSchemeAux rest (c :: acc)
  | [], _ => none

/-- Model of `url.Parse` on scheme-host-path locators: an absolute locator
splits into scheme, host and path; anything else is a bare (relative) path. -/
def urlParse (s : GoStr) : GoUrl :=
  match splitSchemeAux s [] with
  | some (sch, rest) => ⟨sch, rest.takeWhile (· != '/'), rest.dropWhile (· != '/')⟩
  | none => ⟨[], [], s⟩

/-- Model of `URL.String` on the modelled subset. -/
def urlToStr (u : GoUrl) : GoStr :=
  if u.scheme = [] ∧ u.host = [] then u.path
  else u.scheme ++ gs "://" ++ u.host ++ u.path

/-- The directory part of a path: everything up to and including the final
slash (empty when there is no slash). -/
def dirOf (p : GoStr) : GoStr :=
  (p.reverse.dropWhile (· != '/')).reverse

/-- Model of `base.Parse(ref)` (RFC 3986 relative-reference resolution on the
modelled subset): an absolute reference stands alone, a rooted path replaces
the base path, and any other reference is merged onto the base directory. -/
def resolveRef (base : GoUrl) (ref : GoStr) : GoUrl :=
  let r := urlParse ref
  if r.scheme ≠ [] then r
  else if hasPre ['/'] r.path then ⟨base.scheme, base.host, r.path⟩
  else ⟨base.scheme, base.host, dirOf base.path ++ r.path⟩

/-- The base-locator computation of `ReadManifest` (manifest.go:100-101):
the source locator with `path.Base` of its path trimmed off the end. -/
def stripLastSegment (u : GoUrl) : GoUrl :=
  { u with path := dropSuf (pathBase u.path) u.path }

example : natToStr 907 = gs "907" := by decide
example : intToStr (-35) = gs "-35" := by decide
example : formatF ⟨19, 2⟩ = gs "9.500000" := by decide
example : formatF GoFloat.zero = gs "0.000000" := by decide
example : parseFloatGo (gs "9.500000") = some ⟨9500000, 1000000⟩ := by decide
example : parseFloatGo (gs "2.5e-1") = some ⟨25, 100⟩ := by decide
example : GoFloat.toRat ⟨25, 100⟩ = 1 / 4 := by
  norm_num [GoFloat.toRat]
example : parseFloatGo (gs "abc") = none := by decide
example : parseIntGo (gs "-12") = some (-12) := by decide
example : parseIntGo (gs "") = none := by decide
example : pathBase (gs "/videos/index.m3u8") = gs "index.m3u8" := by decide
example : pathExt (gs "seg001.ts") = gs ".ts" := by decide
example : pathExt (gs "a.b/c") = gs "" := by decide
example : formatGoTime zeroGoTime = gs "0001-01-01T00:00:00Z" := by decide
example : parseGoTime (gs "0001-01-01T00:00:00Z") = some zeroGoTime := by decide
example : parseGoTime (gs "2023-07-05T10:20:30.25Z") =
    some ⟨2023, 7, 5, 10, 20, 30, 250000000⟩ := by decide
example : formatGoTime ⟨2023, 7, 5, 10, 20, 30, 250000000⟩ =
    gs "2023-07-05T10:20:30.25Z" := by decide
example : urlParse (gs "https://cdn.example.com/videos/index.m3u8") =
    ⟨gs "https", gs "cdn.example.com", gs "/videos/index.m3u8"⟩ := by decide
example : stripLastSegment (urlParse (gs "https://cdn.example.com/videos/index.m3u8")) =
    ⟨gs "https", gs "cdn.example.com", gs "/videos/"⟩ := by decide
example : urlToStr (resolveRef ⟨gs "https", gs "cdn.example.com", gs "/videos/"⟩
    (gs "seg001.ts")) = gs "https://cdn.example.com/videos/seg001.ts" := by decide

/-! ## The manifest model (pkg/models/manifest.go) -/

/-- Model of `models.ManifestEntry`. -/
structure ManifestEntry where
  Duration : GoFloat
  Url : GoStr
deriving DecidableEq, Repr

/-- Model of `models.Discontinuity`. -/
structure Discontinuity where
  ProgramDateTime : GoTime
  InitFile : GoStr
  Entries : List ManifestEntry
deriving DecidableEq, Repr

/-- The zero `Discontinuity` (what `Discontinuity{}` denotes in Go). -/
def emptyDiscontinuity : Discontinuity := ⟨zeroGoTime, [], []⟩

/-- Model of `models.Manifest`. -/
structure Manifest where
  Version : Int
  MediaSequence : Int
  AllowCache : Bool
  TargetDuration : GoFloat
  Bandwidth : Int
  Codecs : GoStr
  ResolutionHeight : Int
  ResolutionWidth : Int
  Discontinuities : List Discontinuity
  BaseUrl : GoUrl
deriving DecidableEq, Repr

/-- The tag constants of manifest.go. -/
def TagBandwidth : GoStr := gs "##X-BANDWIDTH:"

/-- Codecs tag. -/
def TagCodecs : GoStr := gs "##X-CODECS:"

/-- Resolution tag. -/
def TagResolution : GoStr := gs "##X-RESOLUTION:"

/-- Version tag. -/
def TagVersion : GoStr := gs "#EXT-X-VERSION:"

/-- Media-sequence tag. -/
def TagMediaSequence : GoStr := gs "#EXT-X-MEDIA-SEQUENCE:"

/-- Allow-cache tag. -/
def TagAllowCache : GoStr := gs "#EXT-X-ALLOW-CACHE:"

/-- Target-duration tag. -/
def TagTargetDuration : GoStr := gs "#EXT-X-TARGETDURATION:"

/-- Discontinuity marker line. -/
def TagDiscontinuity : GoStr := gs "#EXT-X-DISCONTINUITY"

/-- Program-date-time tag. -/
def TagProgramDateTime : GoStr := gs "#EXT-X-PROGRAM-DATE-TIME:"

/-- Init-segment tag. -/
def TagInitFile : GoStr := gs "#EXT-X-MAP:URI="

/-- Fragment-duration tag. -/
def TagFragmentDuration : GoStr := gs "#EXTINF:"

/-- End-of-list marker line. -/
def TagEndList : GoStr := gs "#EXT-X-ENDLIST"

/-- Model of `Manifest.AllowCacheString`. -/
def Manifest.AllowCacheString (m : Manifest) : GoStr :=
  if m.AllowCache then gs "YES" else gs "NO"

/-- Model of `Manifest.IsFmp4`: true iff some discontinuity has a non-empty
init-file reference. -/
def Manifest.IsFmp4 (m : Manifest) : Bool :=
  m.Discontinuities.any (fun d => !d.InitFile.isEmpty)

/-- Model of `ManifestEntry.FilenameWithoutExtension`:
`strings.TrimSuffix(path.Base(entry.Url), path.Ext(entry.Url))`. -/
def ManifestEntry.FilenameWithoutExtension (e : ManifestEntry) : GoStr :=
  dropSuf (pathExt e.Url) (pathBase e.Url)

/-- Model of `ManifestEntry.MpegTsFilename`. -/
def ManifestEntry.MpegTsFilename (e : ManifestEntry) : GoStr :=
  e.FilenameWithoutExtension ++ gs ".ts"

/-- Model of `ManifestEntry.Fmp4Filename`. -/
def ManifestEntry.Fmp4Filename (e : ManifestEntry) : GoStr :=
  e.FilenameWithoutExtension ++ gs ".m4s"

/-- Model of `ManifestEntry.DynamicUrl`: resolve the entry reference against
the base locator. -/
def ManifestEntry.DynamicUrl (e : ManifestEntry) (base : GoUrl) : GoUrl :=
  resolveRef base e.Url

/-- Model of `Discontinuity.DynamicInitFile`. -/
def Discontinuity.DynamicInitFile (d : Discontinuity) (base : GoUrl) : GoUrl :=
  resolveRef base d.InitFile

/-- Model of `Discontinuity.InitFileName`:
`fmt.Sprintf("%s.mp4", strings.TrimSuffix(d.InitFile, path.Ext(d.InitFile)))`. -/
def Discontinuity.InitFileName (d : Discontinuity) : GoStr :=
  dropSuf (pathExt d.InitFile) d.InitFile ++ gs ".mp4"

/-- Go's `ManifestEntries` slice type. -/
abbrev ManifestEntries := List ManifestEntry

/-- Model of `ManifestEntries.Runtime`: the running `runtime += entry.Duration`
loop, i.e. a left fold of float64 addition over the entries in order. -/
def ManifestEntries.Runtime (entries : ManifestEntries) : GoFloat :=
  entries.foldl (fun r e => r.add e.Duration) GoFloat.zero

/-! ## The parser (`ReadManifest`) -/

/-- Replace the last discontinuity of the list by `f` of it (the parser's
`manifest.Discontinuities[lastIndex]` updates; the list is never empty when
this is used, matching `make([]Discontinuity, 1)`). -/
def updateLastDisc : List Discontinuity → (Discontinuity → Discontinuity) → List Discontinuity
  | [], _ => []
  | [d], f => [f d]
  | d :: ds, f => d :: updateLastDisc ds f

/-- One single-line tag dispatch of the `ReadManifest` scan loop: every
branch of the Go loop except the two-line `#EXTINF:` branch, in source
order; an unrecognised line leaves the manifest unchanged.  All error
returns of `strconv`/`time.Parse` are discarded exactly as the `, _ =` and
logged-`err` forms in the source do. -/
def applyTag (m : Manifest) (line : GoStr) : Manifest :=
  if hasPre TagBandwidth line then
    { m with Bandwidth := (parseIntGo (dropPre TagBandwidth line)).getD 0 }
  else if hasPre TagCodecs line then
    { m with Codecs := dropPre TagCodecs line }
  else if hasPre TagResolution line then
    let resolution := splitOnChar 'x' (dropPre TagResolution line)
    let m1 := { m with ResolutionWidth := (parseIntGo (resolution.headD [])).getD 0 }
    if resolution.length > 1 then
      { m1 with ResolutionHeight := (parseIntGo ((resolution.drop 1).headD [])).getD 0 }
    else m1
  else if hasPre TagVersion line then
    { m with Version := (parseIntGo (dropPre TagVersion line)).getD 0 }
  else if hasPre TagMediaSequence line then
    { m with MediaSequence := (parseIntGo (dropPre TagMediaSequence line)).getD 0 }
  else if hasPre TagAllowCache line then
    { m with AllowCache := dropPre TagAllowCache line == gs "YES" }
  else if hasPre TagTargetDuration line then
    { m with TargetDuration := (parseFloatGo (dropPre TagTargetDuration line)).getD GoFloat.zero }
  else if line == TagDiscontinuity then
    { m with Discontinuities := m.Discontinuities ++ [emptyDiscontinuity] }
  else if hasPre TagProgramDateTime line then
    { m with Discontinuities := updateLastDisc m.Discontinuities (fun d =>
        { d with ProgramDateTime :=
            (parseGoTime (dropPre TagProgramDateTime line)).getD zeroGoTime }) }
  else if hasPre TagInitFile line then
    { m with Discontinuities := updateLastDisc m.Discontinuities (fun d =>
        { d with InitFile := dropSuf ['"'] (dropPre ['"'] (dropPre TagInitFile line)) }) }
  else m

/-- The `ReadManifest` scan loop over the delivered lines.  The `#EXTINF:`
branch consumes the tag line and the following reference line; if the stream
ends first the loop `break`s with the manifest accumulated so far.  The Go
loop tests `#EXTINF:` last, but the tag prefixes are mutually exclusive, so
testing it first is behaviour-preserving. -/
def parseLoop (m : Manifest) : List GoStr → Manifest
  | [] => m
  | line :: rest =>
    if hasPre TagFragmentDuration line then
      match rest with
      | [] => m
      | url :: rest2 =>
        parseLoop
          { m with Discontinuities := updateLastDisc m.Discontinuities (fun d =>
              { d with Entries := d.Entries ++
                  [⟨(parseFloatGo (dropSuf [','] (dropPre TagFragmentDuration line))).getD
                      GoFloat.zero, url⟩] }) } rest2
    else parseLoop (applyTag m line) rest

/-- The manifest state before the scan loop runs: `new(Manifest)` with the
base locator already derived from the source locator (manifest.go:98-105). -/
def initManifest (sourceUrl : GoStr) : Manifest :=
  ⟨0, 0, false, GoFloat.zero, 0, [], 0, 0, [emptyDiscontinuity],
    stripLastSegment (urlParse sourceUrl)⟩

/-- Model of `ReadManifest`.  The reader is modelled by what the
`bufio.Scanner` delivers: the list of scanned lines plus the terminal
`scanner.Err()` value (`none` for a clean pure read, `some e` when the
underlying reader failed after delivering those lines); the pair returned
mirrors `return manifest, scanner.Err()`. -/
def ReadManifest (lines : List GoStr) (readErr : Option GoStr) (sourceUrl : GoStr) :
    Manifest × Option GoStr :=
  (parseLoop (initManifest sourceUrl) lines, readErr)

/-- Model of `bufio.ScanLines` token dropping of a final carriage return. -/
def dropCR (l : GoStr) : GoStr :=
  if l.getLast? = some '\r' then l.dropLast else l

/-- Accumulator pass of `splitLinesGo`. -/
def splitLinesAux : GoStr → GoStr → List GoStr
  | [], cur => if cur = [] then [] else [dropCR cur]
  | c :: rest, cur =>
    if c = '\n' then dropCR cur :: splitLinesAux rest []
    else splitLinesAux rest (cur ++ [c])

/-- Model of the `bufio.Scanner`/`ScanLines` tokenisation: split at newlines,
drop a final `\r` of each line, and deliver a last unterminated line only
when non-empty. -/
def splitLinesGo (s : GoStr) : List GoStr := splitLinesAux s []

/-- Parsing a whole text: scan its lines, no reader error. -/
def parseManifestText (s : GoStr) (sourceUrl : GoStr) : Manifest :=
  (ReadManifest (splitLinesGo s) none sourceUrl).1

/-! ## The serializer (`WriteLocalManifest`) -/

/-- The header writes of `WriteLocalManifest` (manifest.go:198-234), one list
element per written line. -/
def headerLines (m : Manifest) : List GoStr :=
  [gs "#EXTM3U"] ++
  (if m.Bandwidth ≠ 0 then [TagBandwidth ++ intToStr m.Bandwidth] else []) ++
  (if m.Codecs ≠ [] then [TagCodecs ++ m.Codecs] else []) ++
  (if m.ResolutionWidth ≠ 0 ∧ m.ResolutionHeight ≠ 0 then
    [TagResolution ++ intToStr m.ResolutionWidth ++ 'x' :: intToStr m.ResolutionHeight]
  else []) ++
  [TagVersion ++ intToStr m.Version,
   TagMediaSequence ++ intToStr m.MediaSequence,
   TagAllowCache ++ m.AllowCacheString,
   TagTargetDuration ++ formatF m.TargetDuration]

/-- The fragment local filename the serializer and orchestrator choose:
`MpegTsFilename` in legacy mode, `Fmp4Filename` in fragmented-MP4 mode. -/
def fragmentFileName (isF : Bool) (e : ManifestEntry) : GoStr :=
  if isF then e.Fmp4Filename else e.MpegTsFilename

/-- The per-entry writes of the serializer: the `#EXTINF:%f,` line followed
by the local filename line, for each entry in order. -/
def entryLines (isF : Bool) : List ManifestEntry → List GoStr
  | [] => []
  | e :: es =>
    (TagFragmentDuration ++ formatF e.Duration ++ [',']) ::
      fragmentFileName isF e :: entryLines isF es

/-- The writes of one discontinuity body (without a leading marker): the
program-date-time line, the init-segment line (always written, with the
local `InitFileName`), then the entry lines. -/
def discBodyLines (isF : Bool) (d : Discontinuity) : List GoStr :=
  (TagProgramDateTime ++ formatGoTime d.ProgramDateTime) ::
    (TagInitFile ++ '"' :: d.InitFileName ++ ['"']) :: entryLines isF d.Entries

/-- The writes of every discontinuity after the first, each preceded by the
marker line (`index > 0` in the source loop). -/
def discTailLines (isF : Bool) : List Discontinuity → List GoStr
  | [] => []
  | d :: ds => TagDiscontinuity :: discBodyLines isF d ++ discTailLines isF ds

/-- All lines `WriteLocalManifest` writes, in order. -/
def renderLines (m : Manifest) : List GoStr :=
  headerLines m ++
  (match m.Discontinuities with
   | [] => []
   | d :: ds => discBodyLines m.IsFmp4 d ++ discTailLines m.IsFmp4 ds) ++
  [TagEndList]

/-- Join lines with the newline each `w.Write` call appends. -/
def joinLinesNL : List GoStr → GoStr
  | [] => []
  | l :: rest => l ++ '\n' :: joinLinesNL rest

/-- Model of `WriteLocalManifest`: the exact byte sequence written (the
writer is modelled as a pure buffer; writer I/O errors are out of scope for
the claims about the produced text). -/
def WriteLocalManifest (m : Manifest) : GoStr := joinLinesNL (renderLines m)

/-! ## The orchestrator (`DownloadAllFragments`) -/

/-- The fetches of one discontinuity, in the order the source ranges over
them: the init-segment fetch (fragmented mode only) and one fetch per
fragment.  `fetch` is the `utils.DownloadFile` collaborator, returning
`some err` on failure; each record is (local filename, resolved locator,
outcome). -/
def downloadDisc (isF : Bool) (base : GoUrl) (fetch : GoStr → GoStr → Option GoStr)
    (d : Discontinuity) : List (GoStr × GoStr × Option GoStr) :=
  (if isF then
    [(d.InitFileName, urlToStr (d.DynamicInitFile base),
      fetch d.InitFileName (urlToStr (d.DynamicInitFile base)))]
  else []) ++
  d.Entries.map (fun e =>
    (fragmentFileName isF e, urlToStr (e.DynamicUrl base),
      fetch (fragmentFileName isF e) (urlToStr (e.DynamicUrl base))))

/-- The orchestrator's walk over every discontinuity. -/
def downloadAllAux (isF : Bool) (base : GoUrl) (fetch : GoStr → GoStr → Option GoStr) :
    List Discontinuity → List (GoStr × GoStr × Option GoStr)
  | [] => []
  | d :: ds => downloadDisc isF base fetch d ++ downloadAllAux isF base fetch ds

/-- Model of `Manifest.DownloadAllFragments`.  The goroutine fan-out plus
`WaitGroup` join is modelled by its observable effect: the complete trace of
spawned fetches (every task's outcome is recorded and none is omitted,
whatever the outcomes are); the Go function returns nothing, so a fetch
failure is only an entry in the trace, never a failure of the call. -/
def Manifest.DownloadAllFragments (m : Manifest) (fetch : GoStr → GoStr → Option GoStr) :
    List (GoStr × GoStr × Option GoStr) :=
  downloadAllAux m.IsFmp4 m.BaseUrl fetch m.Discontinuities

/-- The local filenames the orchestrator's tasks write to, in spawn order. -/
def taskFilenamesAux (isF : Bool) : List Discontinuity → List GoStr
  | [] => []
  | d :: ds =>
    (if isF then [d.InitFileName] else []) ++
      d.Entries.map (fragmentFileName isF) ++ taskFilenamesAux isF ds

/-- All destination filenames of one orchestrator run. -/
def taskFilenames (m : Manifest) : List GoStr :=
  taskFilenamesAux m.IsFmp4 m.Discontinuities

/-! ## Spec-side reference functions -/

/-- Modelled from the spec: the number of complete duration+reference pairs
in a line stream — a fragment-duration line followed by a reference line
counts one and consumes both lines; a trailing reference-less
fragment-duration line counts nothing. -/
def specCompletePairs : List GoStr → Nat
  | [] => 0
  | l :: rest =>
    if hasPre TagFragmentDuration l then
      match rest with
      | [] => 0
      | _ :: r => 1 + specCompletePairs r
    else specCompletePairs rest

/-- Modelled from the spec: the fragments of a line stream in source order —
each complete duration+reference pair contributes one fragment carrying the
declared duration (zero when malformed) and the reference line. -/
def specFragments : List GoStr → List ManifestEntry
  | [] => []
  | l :: rest =>
    if hasPre TagFragmentDuration l then
      match rest with
      | [] => []
      | url :: r =>
        ⟨(parseFloatGo (dropSuf [','] (dropPre TagFragmentDuration l))).getD GoFloat.zero,
          url⟩ :: specFragments r
    else specFragments rest

/-- Every fragment of the manifest in encounter order across all
discontinuities. -/
def allEntries (m : Manifest) : List ManifestEntry :=
  (m.Discontinuities.map Discontinuity.Entries).flatten

/-- The total fragment count of a manifest. -/
def totalFragments (m : Manifest) : Nat := (allEntries m).length

example :
    (ReadManifest [gs "#EXT-X-VERSION:3", gs "#EXTINF:9.500000,", gs "seg001.ts",
      gs "#EXTINF:9.500000,", gs "seg002.ts", gs "#EXT-X-ENDLIST"] none
      (gs "https://cdn.example.com/videos/index.m3u8")).1.Version = 3 := by decide

example :
    totalFragments (ReadManifest [gs "#EXTINF:9.500000,", gs "seg001.ts",
      gs "#EXTINF:4.000000,"] none (gs "s")).1 = 1 := by decide

example :
    splitLinesGo (gs "a\r\nb\nc") = [gs "a", gs "b", gs "c"] := by decide

example :
    WriteLocalManifest ⟨0, 0, false, GoFloat.zero, 0, [], 0, 0,
      [⟨zeroGoTime, [], [⟨⟨19, 2⟩, gs "seg001.ts"⟩]⟩], ⟨[], [], []⟩⟩ =
    gs "#EXTM3U\n#EXT-X-VERSION:0\n#EXT-X-MEDIA-SEQUENCE:0\n#EXT-X-ALLOW-CACHE:NO\n#EXT-X-TARGETDURATION:0.000000\n#EXT-X-PROGRAM-DATE-TIME:0001-01-01T00:00:00Z\n#EXT-X-MAP:URI=\".mp4\"\n#EXTINF:9.500000,\nseg001.ts\n#EXT-X-ENDLIST\n" := by decide

/-! ## Reduction lemmas for the parser -/

theorem hasPre_top (p x : GoStr) : hasPre p (p ++ x) = true := by
  induction p with
  | nil => rfl
  | cons c p ih => simp [hasPre, ih]

theorem dropPre_top (p x : GoStr) : dropPre p (p ++ x) = x := by
  simp [dropPre, hasPre_top, List.drop_left]

theorem dropSuf_append_single (c : Char) (x : GoStr) : dropSuf [c] (x ++ [c]) = x := by
  simp [dropSuf, hasSuf, List.reverse_append, hasPre, List.take_left]

theorem applyTag_extm3u (m : Manifest) : applyTag m (gs "#EXTM3U") = m := rfl

theorem applyTag_endlist (m : Manifest) : applyTag m TagEndList = m := rfl

theorem applyTag_bandwidth (m : Manifest) (v : GoStr) :
    applyTag m (TagBandwidth ++ v) = { m with Bandwidth := (parseIntGo v).getD 0 } := rfl

theorem applyTag_codecs (m : Manifest) (v : GoStr) :
    applyTag m (TagCodecs ++ v) = { m with Codecs := v } := rfl

theorem applyTag_resolution (m : Manifest) (v : GoStr) :
    applyTag m (TagResolution ++ v) =
      (if (splitOnChar 'x' v).length > 1 then
        { m with ResolutionWidth := (parseIntGo ((splitOnChar 'x' v).headD [])).getD 0,
                 ResolutionHeight := (parseIntGo (((splitOnChar 'x' v).drop 1).headD [])).getD 0 }
      else
        { m with ResolutionWidth := (parseIntGo ((splitOnChar 'x' v).headD [])).getD 0 }) := rfl

theorem applyTag_version (m : Manifest) (v : GoStr) :
    applyTag m (TagVersion ++ v) = { m with Version := (parseIntGo v).getD 0 } := rfl

theorem applyTag_mediaseq (m : Manifest) (v : GoStr) :
    applyTag m (TagMediaSequence ++ v) = { m with MediaSequence := (parseIntGo v).getD 0 } := rfl

theorem applyTag_allowcache (m : Manifest) (v : GoStr) :
    applyTag m (TagAllowCache ++ v) = { m with AllowCache := v == gs "YES" } := rfl

theorem applyTag_targetduration (m : Manifest) (v : GoStr) :
    applyTag m (TagTargetDuration ++ v) =
      { m with TargetDuration := (parseFloatGo v).getD GoFloat.zero } := rfl

theorem applyTag_marker (m : Manifest) :
    applyTag m TagDiscontinuity =
      { m with Discontinuities := m.Discontinuities ++ [emptyDiscontinuity] } := rfl

theorem applyTag_pdt (m : Manifest) (v : GoStr) :
    applyTag m (TagProgramDateTime ++ v) =
      { m with Discontinuities := updateLastDisc m.Discontinuities (fun d =>
          { d with ProgramDateTime := (parseGoTime v).getD zeroGoTime }) } := rfl

theorem applyTag_map (m : Manifest) (v : GoStr) :
    applyTag m (TagInitFile ++ v) =
      { m with Discontinuities := updateLastDisc m.Discontinuities (fun d =>
          { d with InitFile := dropSuf ['"'] (dropPre ['"'] v) }) } := rfl

theorem parseLoop_cons (m : Manifest) (l : GoStr) (rest : List GoStr) :
    parseLoop m (l :: rest) =
      if hasPre TagFragmentDuration l then
        match rest with
        | [] => m
        | url :: rest2 =>
          parseLoop
            { m with Discontinuities := updateLastDisc m.Discontinuities (fun d =>
                { d with Entries := d.Entries ++
                    [⟨(parseFloatGo (dropSuf [','] (dropPre TagFragmentDuration l))).getD
                        GoFloat.zero, url⟩] }) } rest2
      else parseLoop (applyTag m l) rest := by
  rw [parseLoop.eq_def]

theorem parseLoop_nonfrag (m : Manifest) (l : GoStr) (rest : List GoStr)
    (h : hasPre TagFragmentDuration l = false) :
    parseLoop m (l :: rest) = parseLoop (applyTag m l) rest := by
  simp [parseLoop_cons, h]

theorem parseLoop_frag (m : Manifest) (x url : GoStr) (rest : List GoStr) :
    parseLoop m ((TagFragmentDuration ++ x) :: url :: rest) =
      parseLoop
        { m with Discontinuities := updateLastDisc m.Discontinuities (fun d =>
            { d with Entries := d.Entries ++
                [⟨(parseFloatGo (dropSuf [','] x)).getD GoFloat.zero, url⟩] }) } rest := by
  simp [parseLoop_cons, hasPre_top, dropPre_top]

theorem parseLoop_frag_dangling (m : Manifest) (x : GoStr) :
    parseLoop m [TagFragmentDuration ++ x] = m := by
  simp [parseLoop_cons, hasPre_top]

theorem parseLoop_nil (m : Manifest) : parseLoop m [] = m := by
  rw [parseLoop.eq_def]

theorem applyTag_BaseUrl (m : Manifest) (l : GoStr) : (applyTag m l).BaseUrl = m.BaseUrl := by
  simp only [applyTag, apply_ite Manifest.BaseUrl, ite_self]

theorem parseLoop_BaseUrl (m : Manifest) (ls : List GoStr) :
    (parseLoop m ls).BaseUrl = m.BaseUrl := by
  induction m, ls using parseLoop.induct with
  | case1 m => rfl
  | case2 m line h => simp [parseLoop_cons, h]
  | case3 m line h url rest2 ih => rw [parseLoop_cons]; simpa [h] using ih
  | case4 m line rest h ih =>
    rw [parseLoop_nonfrag m line rest (by simpa using h), ih, applyTag_BaseUrl]

/-! ## Claim C5: total runtime -/

theorem GoFloat.toRat_zero : GoFloat.zero.toRat = 0 := by
  simp [GoFloat.toRat, GoFloat.zero]

theorem GoFloat.toRat_add (a b : GoFloat) : (a.add b).toRat = a.toRat + b.toRat := by
  have ha : (((a.den : ℕ)) : ℚ) ≠ 0 := Nat.cast_ne_zero.mpr a.den.ne_zero
  have hb : (((b.den : ℕ)) : ℚ) ≠ 0 := Nat.cast_ne_zero.mpr b.den.ne_zero
  simp only [GoFloat.add, GoFloat.toRat, PNat.mul_coe]
  push_cast
  field_simp

theorem runtime_foldl_toRat (es : List ManifestEntry) (c : GoFloat) :
    (es.foldl (fun r e => r.add e.Duration) c).toRat =
      c.toRat + ((es.map (fun e => e.Duration.toRat)).sum) := by
  induction es generalizing c with
  | nil => simp
  | cons e es ih =>
    simp only [List.foldl_cons, List.map_cons, List.sum_cons]
    rw [ih (c.add e.Duration), GoFloat.toRat_add]
    ring

/-- C5.  `totalRuntime` (the `Runtime` fold applied to every fragment of the
manifest in encounter order across all discontinuities) is the exact sum of
every fragment's declared duration, both as the flat ordered sum and as the
sum of per-discontinuity sums.  Durations are exact values in the `GoFloat`
model of float64 (see the header), so the fold in encounter order equals the
mathematical sum. -/
theorem c5_total_runtime (m : Manifest) :
    (ManifestEntries.Runtime (allEntries m)).toRat =
      ((allEntries m).map (fun e => e.Duration.toRat)).sum ∧
    (ManifestEntries.Runtime (allEntries m)).toRat =
      (m.Discontinuities.map (fun d => ((d.Entries.map (fun e => e.Duration.toRat)).sum))).sum := by
  have h1 : (ManifestEntries.Runtime (allEntries m)).toRat =
      ((allEntries m).map (fun e => e.Duration.toRat)).sum := by
    have := runtime_foldl_toRat (allEntries m) GoFloat.zero
    simpa [ManifestEntries.Runtime, GoFloat.toRat_zero] using this
  refine ⟨h1, h1.trans ?_⟩
  simp only [allEntries, List.map_flatten, List.sum_flatten, List.map_map]
  rfl

/-! ## Claim C7: local filename derivation -/

/-- C7 counterexample.  The claim derives the local filename by stripping
only the reference's extension; for a fragment reference that carries a
directory (`videos/seg001.ts`) the code also takes `path.Base`, so the
derived filename differs from the claim's strip-extension-only formula. -/
theorem c7_strip_ext_counterexample :
    ManifestEntry.MpegTsFilename ⟨GoFloat.zero, gs "videos/seg001.ts"⟩ ≠
      dropSuf (pathExt (gs "videos/seg001.ts")) (gs "videos/seg001.ts") ++ gs ".ts" := by
  decide

/-- C7 (amended).  The local filename is a pure function of the reference
string and the mode flag: for fragments the reference's final path element
(`path.Base`) has its extension stripped and the fixed extension appended
(`.ts` legacy, `.m4s` fragmented); for init segments only the extension is
stripped (no basename step) and `.mp4` appended; in particular `seg001.ts`
derives `seg001.ts` in legacy mode and `seg001.m4s` in fragmented mode. -/
theorem c7_filename_derivation :
    (∀ e : ManifestEntry,
      e.MpegTsFilename = dropSuf (pathExt e.Url) (pathBase e.Url) ++ gs ".ts" ∧
      e.Fmp4Filename = dropSuf (pathExt e.Url) (pathBase e.Url) ++ gs ".m4s") ∧
    (∀ d : Discontinuity,
      d.InitFileName = dropSuf (pathExt d.InitFile) d.InitFile ++ gs ".mp4") ∧
    ManifestEntry.MpegTsFilename ⟨GoFloat.zero, gs "seg001.ts"⟩ = gs "seg001.ts" ∧
    ManifestEntry.Fmp4Filename ⟨GoFloat.zero, gs "seg001.ts"⟩ = gs "seg001.m4s" :=
  ⟨fun _ => ⟨rfl, rfl⟩, fun _ => rfl, by decide, by decide⟩

/-! ## Claim C8: base locator and reference resolution -/

/-- C8.  The base locator is computed once at parse time as the source
locator with its final path segment stripped (it is what `ReadManifest`
stores and the scan loop never touches it), and the concrete example
resolves as the claim states: base
`https://cdn.example.com/videos/index.m3u8` with fragment reference
`seg001.ts` yields `https://cdn.example.com/videos/seg001.ts`. -/
theorem c8_base_locator_resolution :
    (∀ (lines : List GoStr) (readErr : Option GoStr) (src : GoStr),
      ((ReadManifest lines readErr src).1).BaseUrl = stripLastSegment (urlParse src)) ∧
    stripLastSegment (urlParse (gs "https://cdn.example.com/videos/index.m3u8")) =
      ⟨gs "https", gs "cdn.example.com", gs "/videos/"⟩ ∧
    urlToStr (ManifestEntry.DynamicUrl ⟨GoFloat.zero, gs "seg001.ts"⟩
        (stripLastSegment (urlParse (gs "https://cdn.example.com/videos/index.m3u8")))) =
      gs "https://cdn.example.com/videos/seg001.ts" := by
  refine ⟨fun lines readErr src => ?_, by decide, by decide⟩
  show (parseLoop (initManifest src) lines).BaseUrl = _
  rw [parseLoop_BaseUrl]
  rfl

/-! ## Claim C4: parse errors only from the reader -/

/-- C4.  The parser's error output is exactly the underlying reader's
error (`scanner.Err()` forwarded), so a pure text never produces one; a
malformed float, integer, timestamp or a resolution without height never
aborts: the affected field is (re)set to its zero value and the loop moves
to the next line exactly as for any recognised line. -/
theorem c4_parser_error_recovery :
    (∀ (lines : List GoStr) (readErr : Option GoStr) (src : GoStr),
      (ReadManifest lines readErr src).2 = readErr) ∧
    (∀ v src, parseFloatGo v = none →
      ((ReadManifest [TagTargetDuration ++ v] none src).1).TargetDuration = GoFloat.zero) ∧
    (∀ v src, parseIntGo v = none →
      ((ReadManifest [TagVersion ++ v] none src).1).Version = 0) ∧
    (∀ v src, parseIntGo v = none →
      ((ReadManifest [TagBandwidth ++ v] none src).1).Bandwidth = 0) ∧
    (∀ v src, parseGoTime v = none →
      (((ReadManifest [TagProgramDateTime ++ v] none src).1).Discontinuities.headD
        emptyDiscontinuity).ProgramDateTime = zeroGoTime) ∧
    (∀ v src, (splitOnChar 'x' v).length = 1 →
      ((ReadManifest [TagResolution ++ v] none src).1).ResolutionHeight = 0) ∧
    (∀ (m : Manifest) (l : GoStr) (rest : List GoStr), hasPre TagFragmentDuration l = false →
      parseLoop m (l :: rest) = parseLoop (applyTag m l) rest) := by
  refine ⟨fun _ _ _ => rfl, ?_, ?_, ?_, ?_, ?_, parseLoop_nonfrag⟩
  · intro v src h
    show (parseLoop (initManifest src) [TagTargetDuration ++ v]).TargetDuration = GoFloat.zero
    rw [parseLoop_nonfrag (initManifest src) (TagTargetDuration ++ v) [] rfl, parseLoop_nil,
      applyTag_targetduration, h]
    rfl
  · intro v src h
    show (parseLoop (initManifest src) [TagVersion ++ v]).Version = 0
    rw [parseLoop_nonfrag (initManifest src) (TagVersion ++ v) [] rfl, parseLoop_nil,
      applyTag_version, h]
    rfl
  · intro v src h
    show (parseLoop (initManifest src) [TagBandwidth ++ v]).Bandwidth = 0
    rw [parseLoop_nonfrag (initManifest src) (TagBandwidth ++ v) [] rfl, parseLoop_nil,
      applyTag_bandwidth, h]
    rfl
  · intro v src h
    show ((parseLoop (initManifest src) [TagProgramDateTime ++ v]).Discontinuities.headD
        emptyDiscontinuity).ProgramDateTime = zeroGoTime
    rw [parseLoop_nonfrag (initManifest src) (TagProgramDateTime ++ v) [] rfl, parseLoop_nil,
      applyTag_pdt, h]
    rfl
  · intro v src h
    show (parseLoop (initManifest src) [TagResolution ++ v]).ResolutionHeight = 0
    rw [parseLoop_nonfrag (initManifest src) (TagResolution ++ v) [] rfl, parseLoop_nil,
      applyTag_resolution, if_neg (by omega)]
    rfl

/-- C4 witness: concrete malformed values exercise each recovery clause. -/
theorem c4_parser_error_recovery_witness :
    parseFloatGo (gs "abc") = none ∧
    ((ReadManifest [TagTargetDuration ++ gs "abc"] none (gs "s")).1).TargetDuration =
      GoFloat.zero ∧
    parseGoTime (gs "oops") = none ∧
    (((ReadManifest [TagProgramDateTime ++ gs "oops"] none (gs "s")).1).Discontinuities.headD
      emptyDiscontinuity).ProgramDateTime = zeroGoTime ∧
    (splitOnChar 'x' (gs "100")).length = 1 ∧
    ((ReadManifest [TagResolution ++ gs "100"] none (gs "s")).1).ResolutionHeight = 0 :=
  ⟨by decide, c4_parser_error_recovery.2.1 _ (gs "s") (by decide), by decide,
    c4_parser_error_recovery.2.2.2.2.1 _ (gs "s") (by decide), by decide,
    c4_parser_error_recovery.2.2.2.2.2.1 _ (gs "s") (by decide)⟩

/-! ## Claim C2: distinct destination filenames -/

theorem append_last_ne {a b : Char} (hab : a ≠ b) (p q x y : GoStr) :
    x ++ (p ++ [a]) ≠ y ++ (q ++ [b]) := by
  intro h
  rw [← List.append_assoc, ← List.append_assoc] at h
  have h1 : some a = some b := by
    rw [← List.getLast?_concat (x ++ p), ← List.getLast?_concat (y ++ q), h]
  exact hab (Option.some.inj h1)

theorem initname_ne_fragname (x y : GoStr) : x ++ gs ".mp4" ≠ y ++ gs ".m4s" :=
  append_last_ne (by decide) (gs ".mp") (gs ".m4") x y

theorem taskFilenamesAux_false (ds : List Discontinuity) :
    taskFilenamesAux false ds =
      ((ds.map Discontinuity.Entries).flatten).map (fragmentFileName false) := by
  induction ds with
  | nil => rfl
  | cons d ds ih => simp [taskFilenamesAux, ih]

theorem taskFilenamesAux_true_perm (ds : List Discontinuity) :
    (taskFilenamesAux true ds).Perm
      ((ds.map Discontinuity.InitFileName) ++
        ((ds.map Discontinuity.Entries).flatten).map (fragmentFileName true)) := by
  induction ds with
  | nil => simp [taskFilenamesAux]
  | cons d ds ih =>
    simp only [taskFilenamesAux, List.map_cons, List.flatten_cons, List.map_append,
      if_true, List.cons_append, List.singleton_append]
    refine List.Perm.cons _ ?_
    calc d.Entries.map (fragmentFileName true) ++ taskFilenamesAux true ds
        |>.Perm (d.Entries.map (fragmentFileName true) ++
          (ds.map Discontinuity.InitFileName ++
            ((ds.map Discontinuity.Entries).flatten).map (fragmentFileName true))) :=
          ih.append_left _
      _ |>.Perm (ds.map Discontinuity.InitFileName ++
          (d.Entries.map (fragmentFileName true) ++
            ((ds.map Discontinuity.Entries).flatten).map (fragmentFileName true))) := by
          rw [← List.append_assoc, ← List.append_assoc]
          exact List.perm_append_comm.append_right _

/-- C2 counterexample.  Two distinct fragment references with the same base
name (`a/x.ts` and `b/x.ts`) derive the same local filename `x.ts`, so the
orchestrator's tasks for this manifest do not target pairwise distinct
paths. -/
theorem c2_duplicate_path_counterexample :
    ¬ (taskFilenames ⟨0, 0, false, GoFloat.zero, 0, [], 0, 0,
        [⟨zeroGoTime, [], [⟨GoFloat.zero, gs "a/x.ts"⟩, ⟨GoFloat.zero, gs "b/x.ts"⟩]⟩],
        ⟨[], [], []⟩⟩).Nodup := by
  decide

/-- C2 (amended).  The destination filenames of one orchestrator run are
pairwise distinct provided the derived stems are: when the
basename-without-extension of all fragment references are pairwise distinct
and, in fragmented-MP4 mode, the extension-stripped init references are
pairwise distinct, no two tasks target the same filename (fragment files end
in `.ts`/`.m4s` and init files in `.mp4`, so the two families never
collide). -/
theorem c2_distinct_filenames (m : Manifest)
    (h1 : ((allEntries m).map ManifestEntry.FilenameWithoutExtension).Nodup)
    (h2 : m.IsFmp4 = true →
      (m.Discontinuities.map (fun d => dropSuf (pathExt d.InitFile) d.InitFile)).Nodup) :
    (taskFilenames m).Nodup := by
  unfold taskFilenames
  cases hf : m.IsFmp4 with
  | false =>
    rw [taskFilenamesAux_false]
    have he : ((m.Discontinuities.map Discontinuity.Entries).flatten).map
        (fragmentFileName false) =
        ((allEntries m).map ManifestEntry.FilenameWithoutExtension).map (· ++ gs ".ts") := by
      simp only [allEntries, List.map_map]
      rfl
    rw [he]
    exact h1.map (List.append_left_injective _)
  | true =>
    refine ((taskFilenamesAux_true_perm _).nodup_iff).mpr ?_
    refine List.Nodup.append ?_ ?_ ?_
    · have hi : m.Discontinuities.map Discontinuity.InitFileName =
          (m.Discontinuities.map (fun d => dropSuf (pathExt d.InitFile) d.InitFile)).map
            (· ++ gs ".mp4") := by
        simp only [List.map_map]
        rfl
      rw [hi]
      exact (h2 hf).map (List.append_left_injective _)
    · have he : ((m.Discontinuities.map Discontinuity.Entries).flatten).map
          (fragmentFileName true) =
          ((allEntries m).map ManifestEntry.FilenameWithoutExtension).map (· ++ gs ".m4s") := by
        simp only [allEntries, List.map_map]
        rfl
      rw [he]
      exact h1.map (List.append_left_injective _)
    · intro a ha hb
      obtain ⟨d, _, rfl⟩ := List.mem_map.mp ha
      obtain ⟨e, _, hbe⟩ := List.mem_map.mp hb
      exact initname_ne_fragname _ _ hbe.symm

/-- C2 witness: a fragmented-MP4 manifest whose fragment stems and init
stems are pairwise distinct has pairwise distinct task filenames. -/
theorem c2_distinct_filenames_witness :
    ((allEntries ⟨0, 0, false, GoFloat.zero, 0, [], 0, 0,
        [⟨zeroGoTime, gs "init1.mp4", [⟨GoFloat.zero, gs "a.ts"⟩]⟩,
         ⟨zeroGoTime, gs "init2.mp4", [⟨GoFloat.zero, gs "b.ts"⟩]⟩],
        ⟨[], [], []⟩⟩).map ManifestEntry.FilenameWithoutExtension).Nodup ∧
    (taskFilenames ⟨0, 0, false, GoFloat.zero, 0, [], 0, 0,
        [⟨zeroGoTime, gs "init1.mp4", [⟨GoFloat.zero, gs "a.ts"⟩]⟩,
         ⟨zeroGoTime, gs "init2.mp4", [⟨GoFloat.zero, gs "b.ts"⟩]⟩],
        ⟨[], [], []⟩⟩).Nodup :=
  ⟨by decide, c2_distinct_filenames _ (by decide) (fun _ => by decide)⟩

/-! ## Claim C9: the fetch fan-out -/

/-- Modelled from the spec: the fetch tasks one orchestrator run must issue —
for every discontinuity, one init-segment fetch when the manifest is in
fragmented-MP4 mode, then one fetch per fragment, each pairing the derived
local filename with the resolved locator. -/
def specIssuedTasksAux (isF : Bool) (base : GoUrl) : List Discontinuity → List (GoStr × GoStr)
  | [] => []
  | d :: ds =>
    (if isF then [(d.InitFileName, urlToStr (d.DynamicInitFile base))] else []) ++
      d.Entries.map (fun e => (fragmentFileName isF e, urlToStr (e.DynamicUrl base))) ++
      specIssuedTasksAux isF base ds

/-- The tasks the spec requires of a whole manifest. -/
def specIssuedTasks (m : Manifest) : List (GoStr × GoStr) :=
  specIssuedTasksAux m.IsFmp4 m.BaseUrl m.Discontinuities

theorem downloadAllAux_tasks (isF : Bool) (base : GoUrl)
    (fetch : GoStr → GoStr → Option GoStr) (ds : List Discontinuity) :
    (downloadAllAux isF base fetch ds).map (fun r => (r.1, r.2.1)) =
      specIssuedTasksAux isF base ds := by
  induction ds with
  | nil => rfl
  | cons d ds ih =>
    cases isF <;>
      simp [downloadAllAux, downloadDisc, specIssuedTasksAux, ih, List.map_map,
        Function.comp]

theorem downloadAllAux_length (isF : Bool) (base : GoUrl)
    (fetch : GoStr → GoStr → Option GoStr) (ds : List Discontinuity) :
    (downloadAllAux isF base fetch ds).length =
      (if isF then ds.length else 0) + ((ds.map (fun d => d.Entries.length)).sum) := by
  induction ds with
  | nil => cases isF <;> rfl
  | cons d ds ih =>
    cases isF <;> simp [downloadAllAux, downloadDisc, ih] <;> omega

theorem totalFragments_eq_sum (m : Manifest) :
    totalFragments m = (m.Discontinuities.map (fun d => d.Entries.length)).sum := by
  simp only [totalFragments, allEntries, List.length_flatten, List.map_map]
  rfl

/-- C9.  The orchestrator spawns exactly one fetch per fragment plus one per
init segment per discontinuity in fragmented-MP4 mode: whatever each fetch
returns, the recorded trace covers exactly the issued task list (so no
outcome cancels, blocks or omits another task, and the call itself has no
failure to return), and its length is the fragment count plus the
init-segment count.  The goroutine fan-out and WaitGroup join are modelled
by this complete trace (scheduling itself is outside the embedding). -/
theorem c9_orchestrator_fanout :
    (∀ (m : Manifest) (fetch : GoStr → GoStr → Option GoStr),
      (m.DownloadAllFragments fetch).map (fun r => (r.1, r.2.1)) = specIssuedTasks m) ∧
    (∀ (m : Manifest) (fetch fetch2 : GoStr → GoStr → Option GoStr),
      (m.DownloadAllFragments fetch).map (fun r => (r.1, r.2.1)) =
        (m.DownloadAllFragments fetch2).map (fun r => (r.1, r.2.1))) ∧
    (∀ (m : Manifest) (fetch : GoStr → GoStr → Option GoStr),
      (m.DownloadAllFragments fetch).length =
        (if m.IsFmp4 then m.Discontinuities.length else 0) + totalFragments m) := by
  refine ⟨fun m fetch => downloadAllAux_tasks _ _ _ _, fun m f g => ?_, fun m fetch => ?_⟩
  · show (downloadAllAux m.IsFmp4 m.BaseUrl f m.Discontinuities).map _ =
      (downloadAllAux m.IsFmp4 m.BaseUrl g m.Discontinuities).map _
    rw [downloadAllAux_tasks, downloadAllAux_tasks]
  · show (downloadAllAux m.IsFmp4 m.BaseUrl fetch m.Discontinuities).length = _
    rw [downloadAllAux_length, totalFragments_eq_sum]

/-! ## Claims C3 and C6: the scan-loop structure -/

/-- Total entry count of a discontinuity list. -/
def sumEntries (ds : List Discontinuity) : Nat :=
  (ds.map (fun d => d.Entries.length)).sum

theorem updateLastDisc_length (ds : List Discontinuity) (f : Discontinuity → Discontinuity) :
    (updateLastDisc ds f).length = ds.length := by
  induction ds with
  | nil => rfl
  | cons d ds ih =>
    cases ds with
    | nil => rfl
    | cons d2 ds2 => simpa [updateLastDisc] using ih

theorem updateLastDisc_ne_nil (ds : List Discontinuity) (f : Discontinuity → Discontinuity)
    (h : ds ≠ []) : updateLastDisc ds f ≠ [] := by
  intro hx
  apply h
  have := updateLastDisc_length ds f
  rw [hx] at this
  exact List.length_eq_zero.mp this.symm

theorem updateLastDisc_getLastD (ds : List Discontinuity) (f : Discontinuity → Discontinuity)
    (e : Discontinuity) (h : ds ≠ []) :
    (updateLastDisc ds f).getLastD e = f (ds.getLastD e) := by
  induction ds generalizing e with
  | nil => exact absurd rfl h
  | cons d ds ih =>
    cases ds with
    | nil => rfl
    | cons d2 ds2 =>
      show (d :: updateLastDisc (d2 :: ds2) f).getLastD e = f ((d :: d2 :: ds2).getLastD e)
      rw [List.getLastD_cons, List.getLastD_cons]
      exact ih d (by simp)

theorem sumEntries_updateLastDisc (ds : List Discontinuity)
    (f : Discontinuity → Discontinuity) (h : ∀ d, ((f d).Entries).length = d.Entries.length) :
    sumEntries (updateLastDisc ds f) = sumEntries ds := by
  induction ds with
  | nil => rfl
  | cons d ds ih =>
    cases ds with
    | nil => simp [updateLastDisc, sumEntries, h]
    | cons d2 ds2 =>
      show sumEntries (d :: updateLastDisc (d2 :: ds2) f) = _
      simp only [sumEntries, List.map_cons, List.sum_cons] at ih ⊢
      omega

theorem applyTag_sumEntries (m : Manifest) (l : GoStr) :
    sumEntries (applyTag m l).Discontinuities = sumEntries m.Discontinuities := by
  simp only [applyTag, apply_ite (fun mm : Manifest => sumEntries mm.Discontinuities)]
  rw [sumEntries_updateLastDisc m.Discontinuities (fun d =>
        { d with ProgramDateTime := (parseGoTime (dropPre TagProgramDateTime l)).getD zeroGoTime })
      (fun d => rfl),
    sumEntries_updateLastDisc m.Discontinuities (fun d =>
        { d with InitFile := dropSuf ['"'] (dropPre ['"'] (dropPre TagInitFile l)) })
      (fun d => rfl)]
  simp [sumEntries, emptyDiscontinuity, ite_self]

theorem applyTag_disc_ne_nil (m : Manifest) (l : GoStr) (h : m.Discontinuities ≠ []) :
    (applyTag m l).Discontinuities ≠ [] := by
  simp only [applyTag, apply_ite (fun mm : Manifest => mm.Discontinuities ≠ [])]
  have h1 := updateLastDisc_ne_nil m.Discontinuities
    (fun d => { d with ProgramDateTime :=
      (parseGoTime (dropPre TagProgramDateTime l)).getD zeroGoTime }) h
  have h2 := updateLastDisc_ne_nil m.Discontinuities
    (fun d => { d with InitFile := dropSuf ['"'] (dropPre ['"'] (dropPre TagInitFile l)) }) h
  simp [h, h1, h2, ite_self]

theorem sumEntries_updateLastDisc_addEntry (ds : List Discontinuity) (x : ManifestEntry)
    (h : ds ≠ []) :
    sumEntries (updateLastDisc ds (fun d => { d with Entries := d.Entries ++ [x] })) =
      sumEntries ds + 1 := by
  induction ds with
  | nil => exact absurd rfl h
  | cons d ds ih =>
    cases ds with
    | nil => simp [updateLastDisc, sumEntries]
    | cons d2 ds2 =>
      show sumEntries (d :: updateLastDisc (d2 :: ds2) _) = _
      simp only [sumEntries, List.map_cons, List.sum_cons] at *
      rw [ih (by simp)]
      omega

theorem specCompletePairs_cons (l : GoStr) (rest : List GoStr) :
    specCompletePairs (l :: rest) =
      if hasPre TagFragmentDuration l then
        match rest with
        | [] => 0
        | _ :: r => 1 + specCompletePairs r
      else specCompletePairs rest := by
  rw [specCompletePairs.eq_def]

theorem parseLoop_sumEntries (m : Manifest) (ls : List GoStr) (hne : m.Discontinuities ≠ []) :
    sumEntries (parseLoop m ls).Discontinuities =
      sumEntries m.Discontinuities + specCompletePairs ls := by
  induction m, ls using parseLoop.induct with
  | case1 m => simp [parseLoop_nil, specCompletePairs]
  | case2 m line h =>
    rw [parseLoop_cons]
    simp [h, specCompletePairs]
  | case3 m line h url rest2 ih =>
    rw [parseLoop_cons]
    simp only [h, if_true]
    rw [ih (updateLastDisc_ne_nil _ _ hne)]
    show sumEntries (updateLastDisc m.Discontinuities _) + _ = _
    rw [sumEntries_updateLastDisc_addEntry _ _ hne]
    simp [specCompletePairs, h]
    omega
  | case4 m line rest h ih =>
    rw [parseLoop_nonfrag m line rest (by simpa using h)]
    rw [ih (applyTag_disc_ne_nil _ _ hne), applyTag_sumEntries]
    have hb : hasPre TagFragmentDuration line = false := by simpa using h
    have hs : specCompletePairs (line :: rest) = specCompletePairs rest := by
      simp [specCompletePairs_cons, hb]
    rw [hs]

/-- C3.  The parser never reports an error for a pure text (its error output
is the reader's, which is `none`), and the fragment count of the parsed
manifest equals the number of complete duration+reference pairs of the
input — in particular a trailing reference-less `#EXTINF:` line contributes
no fragment, as the concrete conjunct shows. -/
theorem c3_dangling_fragment_tag :
    (∀ (lines : List GoStr) (src : GoStr), (ReadManifest lines none src).2 = none) ∧
    (∀ (lines : List GoStr) (src : GoStr),
      totalFragments (ReadManifest lines none src).1 = specCompletePairs lines) ∧
    specCompletePairs [gs "#EXTINF:1.000000,", gs "a.ts", gs "#EXTINF:2.000000,"] = 1 := by
  refine ⟨fun _ _ => rfl, fun lines src => ?_, by decide⟩
  have h := parseLoop_sumEntries (initManifest src) lines (by simp [initManifest])
  have ht : totalFragments (ReadManifest lines none src).1 =
      sumEntries ((parseLoop (initManifest src) lines)).Discontinuities := by
    rw [totalFragments_eq_sum]
    rfl
  rw [ht, h]
  simp [sumEntries, initManifest, emptyDiscontinuity]

theorem applyTag_disc_len_ge (m : Manifest) (l : GoStr) :
    m.Discontinuities.length ≤ (applyTag m l).Discontinuities.length := by
  simp only [applyTag, apply_ite (fun mm : Manifest => mm.Discontinuities.length),
    updateLastDisc_length, List.length_append]
  repeat' split
  all_goals simp

theorem parseLoop_disc_len_ge (m : Manifest) (ls : List GoStr) :
    m.Discontinuities.length ≤ (parseLoop m ls).Discontinuities.length := by
  induction m, ls using parseLoop.induct with
  | case1 m => simp [parseLoop_nil]
  | case2 m line h => rw [parseLoop_cons]; simp [h]
  | case3 m line h url rest2 ih =>
    rw [parseLoop_cons]
    simp only [h, if_true]
    calc m.Discontinuities.length
        = (updateLastDisc m.Discontinuities _).length := (updateLastDisc_length _ _).symm
      _ ≤ _ := ih
  | case4 m line rest h ih =>
    rw [parseLoop_nonfrag m line rest (by simpa using h)]
    exact le_trans (applyTag_disc_len_ge m line) ih

theorem applyTag_disc_len_eq (m : Manifest) (l : GoStr)
    (hm : (l == TagDiscontinuity) = false) :
    (applyTag m l).Discontinuities.length = m.Discontinuities.length := by
  simp [applyTag, apply_ite (fun mm : Manifest => mm.Discontinuities.length),
    updateLastDisc_length, hm]

theorem applyTag_lastEntries (m : Manifest) (l : GoStr)
    (hm : (l == TagDiscontinuity) = false) (hne : m.Discontinuities ≠ []) :
    ((applyTag m l).Discontinuities.getLastD emptyDiscontinuity).Entries =
      (m.Discontinuities.getLastD emptyDiscontinuity).Entries := by
  simp only [applyTag,
    apply_ite (fun mm : Manifest => (mm.Discontinuities.getLastD emptyDiscontinuity).Entries)]
  rw [updateLastDisc_getLastD m.Discontinuities (fun d =>
        { d with ProgramDateTime := (parseGoTime (dropPre TagProgramDateTime l)).getD zeroGoTime })
      emptyDiscontinuity hne,
    updateLastDisc_getLastD m.Discontinuities (fun d =>
        { d with InitFile := dropSuf ['"'] (dropPre ['"'] (dropPre TagInitFile l)) })
      emptyDiscontinuity hne]
  simp [hm, ite_self]

theorem specFragments_cons (l : GoStr) (rest : List GoStr) :
    specFragments (l :: rest) =
      if hasPre TagFragmentDuration l then
        match rest with
        | [] => []
        | url :: r =>
          ⟨(parseFloatGo (dropSuf [','] (dropPre TagFragmentDuration l))).getD GoFloat.zero,
            url⟩ :: specFragments r
      else specFragments rest := by
  rw [specFragments.eq_def]

theorem parseLoop_nomarker (m : Manifest) (ls : List GoStr)
    (hmark : TagDiscontinuity ∉ ls) (hne : m.Discontinuities ≠ []) :
    (parseLoop m ls).Discontinuities.length = m.Discontinuities.length ∧
    ((parseLoop m ls).Discontinuities.getLastD emptyDiscontinuity).Entries =
      (m.Discontinuities.getLastD emptyDiscontinuity).Entries ++ specFragments ls := by
  induction m, ls using parseLoop.induct with
  | case1 m => simp [parseLoop_nil, specFragments]
  | case2 m line h =>
    rw [parseLoop_cons]
    simp [h, specFragments_cons]
  | case3 m line h url rest2 ih =>
    rw [parseLoop_cons]
    simp only [h, if_true]
    have hmark2 : TagDiscontinuity ∉ rest2 := by
      intro hx; exact hmark (by simp [hx])
    have hne2 := updateLastDisc_ne_nil m.Discontinuities
      (fun d => { d with Entries := d.Entries ++
        [⟨(parseFloatGo (dropSuf [','] (dropPre TagFragmentDuration line))).getD
            GoFloat.zero, url⟩] }) hne
    obtain ⟨ihl, ihe⟩ := ih hmark2 hne2
    constructor
    · rw [ihl, updateLastDisc_length]
    · rw [ihe, updateLastDisc_getLastD _ _ _ hne]
      rw [specFragments_cons]
      simp [h, List.append_assoc]
  | case4 m line rest h ih =>
    have hb : hasPre TagFragmentDuration line = false := by simpa using h
    have hm : (line == TagDiscontinuity) = false := by
      have : line ≠ TagDiscontinuity := fun hx => hmark (by simp [hx])
      exact beq_eq_false_iff_ne.mpr this
    have hmark2 : TagDiscontinuity ∉ rest := by
      intro hx; exact hmark (by simp [hx])
    rw [parseLoop_nonfrag m line rest hb]
    obtain ⟨ihl, ihe⟩ := ih hmark2 (applyTag_disc_ne_nil _ _ hne)
    refine ⟨by rw [ihl, applyTag_disc_len_eq _ _ hm], ?_⟩
    rw [ihe, applyTag_lastEntries _ _ hm hne]
    rw [specFragments_cons]
    simp [hb]

/-- C6.  Every parsed manifest has at least one discontinuity (the parser
starts from a one-element list and never shrinks it), and on an input with
no discontinuity-marker line the result has exactly one discontinuity whose
entries are every duration+reference pair of the input in source order. -/
theorem c6_discontinuity_invariant (lines : List GoStr) (src : GoStr)
    (h : TagDiscontinuity ∉ lines) :
    (∀ (lines2 : List GoStr) (src2 : GoStr),
      1 ≤ ((ReadManifest lines2 none src2).1).Discontinuities.length) ∧
    ((ReadManifest lines none src).1).Discontinuities.length = 1 ∧
    (((ReadManifest lines none src).1).Discontinuities.headD emptyDiscontinuity).Entries =
      specFragments lines := by
  obtain ⟨hl, he⟩ := parseLoop_nomarker (initManifest src) lines h (by simp [initManifest])
  refine ⟨fun lines2 src2 => ?_, ?_, ?_⟩
  · exact le_trans (by simp [initManifest]) (parseLoop_disc_len_ge (initManifest src2) lines2)
  · exact hl
  · obtain ⟨d, hd⟩ := List.length_eq_one.mp hl
    show ((parseLoop (initManifest src) lines).Discontinuities.headD emptyDiscontinuity).Entries
      = specFragments lines
    have he2 : ((parseLoop (initManifest src) lines).Discontinuities.getLastD
        emptyDiscontinuity).Entries = specFragments lines := by
      rw [he]
      rfl
    rw [hd] at he2 ⊢
    exact he2

/-- C6 witness: a two-line marker-free input parses to one discontinuity
holding its single fragment. -/
theorem c6_discontinuity_invariant_witness :
    TagDiscontinuity ∉ [gs "#EXTINF:1.000000,", gs "s.ts"] ∧
    ((ReadManifest [gs "#EXTINF:1.000000,", gs "s.ts"] none
      (gs "u")).1).Discontinuities.length = 1 ∧
    (((ReadManifest [gs "#EXTINF:1.000000,", gs "s.ts"] none
      (gs "u")).1).Discontinuities.headD emptyDiscontinuity).Entries =
      specFragments [gs "#EXTINF:1.000000,", gs "s.ts"] :=
  ⟨by decide,
    (c6_discontinuity_invariant [gs "#EXTINF:1.000000,", gs "s.ts"] (gs "u") (by decide)).2.1,
    (c6_discontinuity_invariant [gs "#EXTINF:1.000000,", gs "s.ts"] (gs "u") (by decide)).2.2⟩

/-! ## Claims C10 and C1: what parsing the serializer's output yields -/

theorem splitLinesAux_line (line rest cur : GoStr) (h : '\n' ∉ line) :
    splitLinesAux (line ++ '\n' :: rest) cur = dropCR (cur ++ line) :: splitLinesAux rest [] := by
  induction line generalizing cur with
  | nil => simp [splitLinesAux]
  | cons c cs ih =>
    have hc : ¬ (c = '\n') := fun hx => h (by simp [hx])
    have step : splitLinesAux ((c :: cs) ++ '\n' :: rest) cur
        = splitLinesAux (cs ++ '\n' :: rest) (cur ++ [c]) := by
      show splitLinesAux (c :: (cs ++ '\n' :: rest)) cur = _
      rw [splitLinesAux, if_neg hc]
    rw [step, ih (cur ++ [c]) (fun hx => h (by simp [hx]))]
    simp

theorem splitLinesGo_joinLinesNL (ls : List GoStr)
    (h : ∀ l ∈ ls, '\n' ∉ l ∧ l.getLast? ≠ some '\r') :
    splitLinesGo (joinLinesNL ls) = ls := by
  induction ls with
  | nil => rfl
  | cons l ls ih =>
    show splitLinesAux (l ++ '\n' :: joinLinesNL ls) [] = l :: ls
    rw [splitLinesAux_line _ _ _ (h l (by simp)).1]
    have hcr : dropCR l = l := by
      rw [dropCR, if_neg (h l (by simp)).2]
    rw [List.nil_append, hcr]
    exact congrArg _ (ih (fun x hx => h x (by simp [hx])))

/-- What one fragment entry becomes after rendering and re-parsing: the
re-parsed `%f` text of its duration and its derived local filename. -/
def reEntry (isF : Bool) (e : ManifestEntry) : ManifestEntry :=
  ⟨(parseFloatGo (formatF e.Duration)).getD GoFloat.zero, fragmentFileName isF e⟩

/-- What one discontinuity becomes after rendering and re-parsing: the
re-parsed program date time, the derived init filename (always non-empty),
and the re-parsed entries. -/
def reDisc (isF : Bool) (d : Discontinuity) : Discontinuity :=
  ⟨(parseGoTime (formatGoTime d.ProgramDateTime)).getD zeroGoTime, d.InitFileName,
    d.Entries.map (reEntry isF)⟩

theorem updateLastDisc_append_last (pre : List Discontinuity) (cur : Discontinuity)
    (f : Discontinuity → Discontinuity) :
    updateLastDisc (pre ++ [cur]) f = pre ++ [f cur] := by
  induction pre with
  | nil => rfl
  | cons p pre ih =>
    show updateLastDisc (p :: (pre ++ [cur])) f = p :: (pre ++ [f cur])
    cases hpp : pre ++ [cur] with
    | nil => exact absurd hpp (by simp)
    | cons y ys =>
      rw [show updateLastDisc (p :: y :: ys) f = p :: updateLastDisc (y :: ys) f from rfl]
      rw [← hpp, ih]

/-- Lines the scan loop treats as plain single-line tags that never touch
the discontinuity list: not a fragment tag, not the marker, not a
program-date-time or init-file tag. -/
def headerish (l : GoStr) : Prop :=
  hasPre TagFragmentDuration l = false ∧ (l == TagDiscontinuity) = false ∧
    hasPre TagProgramDateTime l = false ∧ hasPre TagInitFile l = false

theorem applyTag_disc_headerish (m : Manifest) (l : GoStr) (h : headerish l) :
    (applyTag m l).Discontinuities = m.Discontinuities := by
  obtain ⟨h1, h2, h3, h4⟩ := h
  simp [applyTag, apply_ite (fun mm : Manifest => mm.Discontinuities), h2, h3, h4]

theorem parseLoop_headerish_chunk (hl : List GoStr) (m : Manifest) (rest : List GoStr)
    (h : ∀ l ∈ hl, headerish l) :
    parseLoop m (hl ++ rest) = parseLoop (hl.foldl applyTag m) rest ∧
      (hl.foldl applyTag m).Discontinuities = m.Discontinuities := by
  induction hl generalizing m with
  | nil => exact ⟨rfl, rfl⟩
  | cons l hl ih =>
    have hhead := h l (by simp)
    have hrest : ∀ x ∈ hl, headerish x := fun x hx => h x (by simp [hx])
    obtain ⟨ih1, ih2⟩ := ih (applyTag m l) hrest
    refine ⟨?_, ?_⟩
    · show parseLoop m (l :: (hl ++ rest)) = _
      rw [parseLoop_nonfrag m l _ hhead.1, ih1]
      rfl
    · show (hl.foldl applyTag (applyTag m l)).Discontinuities = m.Discontinuities
      rw [ih2, applyTag_disc_headerish m l hhead]

theorem headerLines_headerish (m : Manifest) : ∀ l ∈ headerLines m, headerish l := by
  intro l hl
  simp only [headerLines, List.append_assoc, List.mem_append] at hl
  rcases hl with h1 | h1
  · simp at h1
    subst h1
    exact ⟨by decide, by decide, by decide, by decide⟩
  rcases h1 with h1 | h1
  · split at h1
    · simp at h1; subst h1; exact ⟨rfl, rfl, rfl, rfl⟩
    · simp at h1
  rcases h1 with h1 | h1
  · split at h1
    · simp at h1; subst h1; exact ⟨rfl, rfl, rfl, rfl⟩
    · simp at h1
  rcases h1 with h1 | h1
  · split at h1
    · simp at h1; subst h1; exact ⟨rfl, rfl, rfl, rfl⟩
    · simp at h1
  simp only [List.mem_cons, List.mem_singleton] at h1
  rcases h1 with h1 | h1 | h1 | h1 | h1
  · subst h1; exact ⟨rfl, rfl, rfl, rfl⟩
  · subst h1; exact ⟨rfl, rfl, rfl, rfl⟩
  · subst h1; exact ⟨rfl, rfl, rfl, rfl⟩
  · subst h1; exact ⟨rfl, rfl, rfl, rfl⟩
  · simp at h1

theorem parseLoop_entryLines (isF : Bool) (es : List ManifestEntry) (m : Manifest)
    (pre : List Discontinuity) (cur : Discontinuity) (rest : List GoStr)
    (hdisc : m.Discontinuities = pre ++ [cur]) :
    parseLoop m (entryLines isF es ++ rest) =
      parseLoop { m with Discontinuities :=
          pre ++ [{ cur with Entries := cur.Entries ++ es.map (reEntry isF) }] } rest := by
  induction es generalizing m pre cur with
  | nil =>
    obtain ⟨cp, ci, ce⟩ := cur
    simp only [entryLines, List.map_nil, List.append_nil, List.nil_append]
    rw [← hdisc]
  | cons e es ih =>
    show parseLoop m ((TagFragmentDuration ++ formatF e.Duration ++ [',']) ::
      fragmentFileName isF e :: (entryLines isF es ++ rest)) = _
    rw [List.append_assoc TagFragmentDuration, parseLoop_frag]
    rw [hdisc, updateLastDisc_append_last]
    rw [ih _ pre _ rfl]
    have he : dropSuf [','] (formatF e.Duration ++ [',']) = formatF e.Duration :=
      dropSuf_append_single _ _
    simp only [he, List.map_cons]
    rw [List.append_assoc cur.Entries]
    rfl

theorem parseLoop_discBody (isF : Bool) (d : Discontinuity) (m : Manifest)
    (pre : List Discontinuity) (cur : Discontinuity) (rest : List GoStr)
    (hdisc : m.Discontinuities = pre ++ [cur]) :
    parseLoop m (discBodyLines isF d ++ rest) =
      parseLoop { m with Discontinuities :=
          pre ++ [⟨(parseGoTime (formatGoTime d.ProgramDateTime)).getD zeroGoTime,
            d.InitFileName, cur.Entries ++ d.Entries.map (reEntry isF)⟩] } rest := by
  show parseLoop m ((TagProgramDateTime ++ formatGoTime d.ProgramDateTime) ::
    ((TagInitFile ++ '"' :: d.InitFileName) ++ ['"']) :: (entryLines isF d.Entries ++ rest)) = _
  rw [parseLoop_nonfrag m (TagProgramDateTime ++ formatGoTime d.ProgramDateTime) _ rfl,
    applyTag_pdt]
  rw [hdisc, updateLastDisc_append_last]
  rw [List.append_assoc TagInitFile]
  rw [parseLoop_nonfrag _ (TagInitFile ++ ('"' :: d.InitFileName ++ ['"'])) _ rfl, applyTag_map]
  rw [updateLastDisc_append_last]
  rw [show dropSuf ['"'] (dropPre ['"'] ('"' :: d.InitFileName ++ ['"'])) = d.InitFileName from
    dropSuf_append_single '"' d.InitFileName]
  rw [parseLoop_entryLines isF d.Entries _ pre _ _ rfl]

theorem parseLoop_discTail (isF : Bool) (ds : List Discontinuity) (m : Manifest)
    (pre : List Discontinuity) (cur : Discontinuity) (rest : List GoStr)
    (hdisc : m.Discontinuities = pre ++ [cur]) :
    parseLoop m (discTailLines isF ds ++ rest) =
      parseLoop { m with Discontinuities := (pre ++ [cur]) ++ ds.map (reDisc isF) } rest := by
  induction ds generalizing m pre cur with
  | nil =>
    simp only [discTailLines, List.map_nil, List.append_nil, List.nil_append]
    rw [← hdisc]
  | cons d ds ih =>
    show parseLoop m (TagDiscontinuity ::
      ((discBodyLines isF d ++ discTailLines isF ds) ++ rest)) = _
    rw [List.append_assoc]
    rw [parseLoop_nonfrag m TagDiscontinuity _ rfl, applyTag_marker, hdisc]
    rw [parseLoop_discBody isF d _ (pre ++ [cur]) emptyDiscontinuity _ rfl]
    rw [ih _ (pre ++ [cur]) _ rfl]
    simp only [List.map_cons, emptyDiscontinuity, List.nil_append, List.append_assoc,
      List.cons_append, List.singleton_append]
    rfl

theorem initFileName_ne_nil (d : Discontinuity) : d.InitFileName ≠ [] := by
  intro h
  have hlen := congrArg List.length h
  simp [Discontinuity.InitFileName, gs] at hlen

theorem initFileName_isEmpty_false (d : Discontinuity) :
    (d.InitFileName).isEmpty = false := by
  cases h : d.InitFileName with
  | nil => exact absurd h (initFileName_ne_nil d)
  | cons a l => rfl

theorem mem_discTailLines (isF : Bool) {d : Discontinuity} {ds : List Discontinuity}
    (hdm : d ∈ ds) :
    (TagProgramDateTime ++ formatGoTime d.ProgramDateTime) ∈ discTailLines isF ds ∧
      ((TagInitFile ++ '"' :: d.InitFileName) ++ ['"']) ∈ discTailLines isF ds := by
  induction ds with
  | nil => simp at hdm
  | cons d2 ds2 ih =>
    rcases List.mem_cons.mp hdm with h | h
    · subst h
      refine ⟨?_, ?_⟩ <;>
        exact List.mem_cons_of_mem _ (List.mem_append_left _ (by simp [discBodyLines]))
    · obtain ⟨i1, i2⟩ := ih h
      exact ⟨List.mem_cons_of_mem _ (List.mem_append_right _ i1),
        List.mem_cons_of_mem _ (List.mem_append_right _ i2)⟩

/-- The discontinuity list obtained by parsing the serializer's output: each
discontinuity of the source manifest reappears as its `reDisc` image, in
order, provided there is at least one discontinuity and no string field
breaks the rendered line structure. -/
theorem parse_render_disc (m : Manifest) (d0 : Discontinuity) (ds : List Discontinuity)
    (hd : m.Discontinuities = d0 :: ds)
    (hsafe : ∀ l ∈ renderLines m, '\n' ∉ l ∧ l.getLast? ≠ some '\r') (src : GoStr) :
    (parseManifestText (WriteLocalManifest m) src).Discontinuities =
      reDisc m.IsFmp4 d0 :: ds.map (reDisc m.IsFmp4) := by
  show (parseLoop (initManifest src)
    (splitLinesGo (joinLinesNL (renderLines m)))).Discontinuities = _
  rw [splitLinesGo_joinLinesNL _ hsafe]
  have hr : renderLines m = headerLines m ++
      (discBodyLines m.IsFmp4 d0 ++ (discTailLines m.IsFmp4 ds ++ [TagEndList])) := by
    simp only [renderLines, hd, List.append_assoc]
  rw [hr]
  obtain ⟨hstep, hdisc⟩ :=
    parseLoop_headerish_chunk (headerLines m) (initManifest src) _ (headerLines_headerish m)
  rw [hstep]
  rw [parseLoop_discBody m.IsFmp4 d0 _ [] emptyDiscontinuity _ (by rw [hdisc]; rfl)]
  rw [parseLoop_discTail m.IsFmp4 ds _ []
    ⟨(parseGoTime (formatGoTime d0.ProgramDateTime)).getD zeroGoTime, d0.InitFileName,
      emptyDiscontinuity.Entries ++ d0.Entries.map (reEntry m.IsFmp4)⟩ _ (by simp)]
  rw [parseLoop_nonfrag _ TagEndList _ rfl, parseLoop_nil, applyTag_endlist]
  simp [reDisc, emptyDiscontinuity]

/-- C10 (amended).  The serializer writes a program-date-time line and an
init-segment line for every discontinuity of the manifest unconditionally;
an empty init reference renders as the non-empty URI `.mp4` (every derived
init filename is non-empty); consequently, for every manifest that has at
least one discontinuity and whose rendered lines are not broken up by
embedded newline or trailing carriage-return characters in its string
fields, parsing the serializer's output (with any source locator) yields a
manifest for which `IsFmp4` is true. -/
theorem c10_fmp4_after_roundtrip (m : Manifest) (d0 : Discontinuity)
    (ds : List Discontinuity) (hd : m.Discontinuities = d0 :: ds)
    (hsafe : ∀ l ∈ renderLines m, '\n' ∉ l ∧ l.getLast? ≠ some '\r') (src : GoStr) :
    (∀ d ∈ m.Discontinuities,
      (TagProgramDateTime ++ formatGoTime d.ProgramDateTime) ∈ renderLines m ∧
      ((TagInitFile ++ '"' :: d.InitFileName) ++ ['"']) ∈ renderLines m) ∧
    Discontinuity.InitFileName ⟨zeroGoTime, [], []⟩ = gs ".mp4" ∧
    (∀ d : Discontinuity, d.InitFileName ≠ []) ∧
    Manifest.IsFmp4 (parseManifestText (WriteLocalManifest m) src) = true := by
  refine ⟨?_, by decide, initFileName_ne_nil, ?_⟩
  · intro d hdm
    rw [hd] at hdm
    have hr : renderLines m = headerLines m ++
        (discBodyLines m.IsFmp4 d0 ++ (discTailLines m.IsFmp4 ds ++ [TagEndList])) := by
      simp only [renderLines, hd, List.append_assoc]
    rw [hr]
    rcases List.mem_cons.mp hdm with h | h
    · subst h
      refine ⟨?_, ?_⟩ <;>
        exact List.mem_append_right _ (List.mem_append_left _ (by simp [discBodyLines]))
    · obtain ⟨i1, i2⟩ := mem_discTailLines m.IsFmp4 h
      exact ⟨List.mem_append_right _ (List.mem_append_right _ (List.mem_append_left _ i1)),
        List.mem_append_right _ (List.mem_append_right _ (List.mem_append_left _ i2))⟩
  · have hres := parse_render_disc m d0 ds hd hsafe src
    simp [Manifest.IsFmp4, hres, reDisc, initFileName_isEmpty_false]

/-- C10 counterexample.  A manifest with no discontinuity (constructible in
the model, `Manifest{}` in Go) renders to a playlist with no init-segment
line at all, and parsing that output yields a manifest that is not
fragmented-MP4 — so the claim's "parsing any serializer output yields
isFragmentedMp4() true" fails at this input. -/
theorem c10_empty_manifest_counterexample :
    Manifest.IsFmp4 (parseManifestText
      (WriteLocalManifest ⟨0, 0, false, GoFloat.zero, 0, [], 0, 0, [], ⟨[], [], []⟩⟩)
      (gs "u")) = false := by
  decide

/-- A one-fragment legacy (MPEG-TS, no init segment) manifest used as the
concrete input for the round-trip claims. -/
def legacyOneFragmentManifest : Manifest :=
  ⟨0, 0, false, GoFloat.zero, 0, [], 0, 0,
    [⟨zeroGoTime, [], [⟨⟨19, 2⟩, gs "seg001.ts"⟩]⟩], ⟨[], [], []⟩⟩

/-- C10 witness: the one-fragment legacy manifest satisfies the amended
claim's hypotheses, and parsing its rendered output is fragmented-MP4. -/
theorem c10_fmp4_after_roundtrip_witness :
    (∀ l ∈ renderLines legacyOneFragmentManifest, '\n' ∉ l ∧ l.getLast? ≠ some '\r') ∧
    Manifest.IsFmp4 (parseManifestText (WriteLocalManifest legacyOneFragmentManifest)
      (gs "u")) = true :=
  ⟨by decide,
    (c10_fmp4_after_roundtrip legacyOneFragmentManifest
      ⟨zeroGoTime, [], [⟨⟨19, 2⟩, gs "seg001.ts"⟩]⟩ [] rfl (by decide) (gs "u")).2.2.2⟩

/-- C1.  Normalization is not idempotent: for the one-fragment legacy
manifest, the serializer's output contains the fragment line `seg001.ts`,
but rendering the re-parsed manifest switches the fragment filename to
`seg001.m4s` (the unconditional `#EXT-X-MAP:URI=".mp4"` line the serializer
emits makes the re-parsed manifest fragmented-MP4), so
`render(parse(render(m)))` differs from `render(m)` byte for byte. -/
theorem c1_normalization_not_idempotent :
    WriteLocalManifest (parseManifestText (WriteLocalManifest legacyOneFragmentManifest)
        (gs "https://cdn.example.com/videos/index.m3u8")) ≠
      WriteLocalManifest legacyOneFragmentManifest ∧
    gs "seg001.ts" ∈ renderLines legacyOneFragmentManifest ∧
    gs "seg001.m4s" ∈ renderLines (parseManifestText
      (WriteLocalManifest legacyOneFragmentManifest)
      (gs "https://cdn.example.com/videos/index.m3u8")) := by
  decide
